import Mathlib

/-!
Shallow embedding of the Ansible npm module
(src/packaging/language/npm.py) and proofs about its reconciliation
logic. The module shells out to the npm executable; here the outputs of
those external invocations are a fixture, and the module logic (option
validation, JSON-shaped output inspection, the installed/missing/outdated
set computation, and the mutate-or-not decision of main) is translated
into pure Lean functions. Machine-level concerns (the actual process
spawn, the command-line construction from flags such as production or
registry) do not affect any computed set or decision and are not modelled
beyond which commands get executed.
-/

namespace NpmMod

/-- Python truthiness of an optional string value: None and the empty
string are falsy, every other string is truthy. -/
def strTruthy : Option String → Bool
  | none => false
  | some s => s ≠ ""

/-- The shape of one entry of the dependencies object in the parsed
output of npm list --json, as the fields are accessed by Npm.list:
missing and invalid are absent (none) or present with a truthiness
(already collapsed to Bool), version is absent or a string. -/
structure DepInfo where
  missing : Option Bool
  invalid : Option Bool
  version : Option String
deriving DecidableEq

/-- The shape of one entry of the parsed output of npm outdated --json,
as accessed by Npm.list and Npm.list_outdated: each field is absent
(none) or present with its string value. -/
structure OutInfo where
  location : Option String
  current : Option String
  wanted : Option String
deriving DecidableEq

/-- Python exceptions that the modelled code can raise and that are
distinguished by its handlers: json.loads raises ValueError, a lookup of
a missing dict key raises KeyError (except ValueError does not catch
it), and unpacking a 1-element split result raises ValueError as well. -/
inductive PyErr
  | valueError
  | keyError
deriving DecidableEq

/-- External commands this module can run (the npm subcommand of each
run_command invocation). outdatedPlain is the fallback invocation of
npm outdated without --json in list_outdated. -/
inductive Cmd
  | list
  | outdated
  | outdatedPlain
  | install
  | update
  | uninstall
deriving DecidableEq

/-- Npm methods that main can invoke. -/
inductive Meth
  | list
  | listOutdated
  | install
  | update
  | uninstall
deriving DecidableEq

/-- A fixture of the external tool: what each possible invocation would
yield. The JSON invocations yield either a parse failure (ValueError) or
the parsed shape that the code then inspects; listJson holds the
optional dependencies object of npm list --json, outdatedJson the
package-to-info object of npm outdated --json, outdatedPlain the
splitlines of the plain npm outdated output used by the legacy fallback.
For the mutating commands, the exit code and the captured output. -/
structure Fixture where
  listJson : Except Unit (Option (List (String × DepInfo)))
  outdatedJson : Except Unit (List (String × OutInfo))
  outdatedPlain : List String
  installRes : Nat × String
  updateRes : Nat × String
  uninstallRes : Nat × String

/-- Module parameters relevant to the modelled logic (name, path,
version, global, state from the argument spec, plus Ansible check
mode). The remaining options (production, registry, executable,
ignore_scripts) only add command-line flags and change no decision. -/
structure Params where
  name : Option String
  path : Option String
  version : Option String
  glbl : Bool
  state : String
  checkMode : Bool

/-- The slice of the Npm object state that the set computations read:
name, and reqversion as set by Npm.__init__ (the requested version when
it is truthy, otherwise None). -/
structure Npm where
  name : Option String
  reqversion : Option String

/-- Npm.__init__ on the parameters: reqversion is the version when
truthy, else None. -/
def mkNpm (p : Params) : Npm :=
  { name := p.name
    reqversion := if strTruthy p.version then p.version else none }

/-- Which invocations pass check_rc=True to run_command: the mutating
commands use the default of Npm._exec, the inspection commands all pass
check_rc=False at their call sites. -/
def cmdCheckRc : Cmd → Bool
  | .install => true
  | .update => true
  | .uninstall => true
  | _ => false

/-- Which invocations pass run_in_check_mode=True to Npm._exec: all
inspection call sites do, the mutating commands use the default False. -/
def cmdRunInCheckMode : Cmd → Bool
  | .install => false
  | .update => false
  | .uninstall => false
  | _ => true

/-- Modelled from the spec: AnsibleModule.run_command (Ansible core, not
part of this repository) returns the exit code and captured output;
with check_rc=True a non-zero exit code is a fatal failure carrying the
captured output as its message, and with check_rc=False the output is
returned regardless of the exit code. -/
def runCommand (checkRc : Bool) (rc : Nat) (out : String) : Except String String :=
  if checkRc && rc != 0 then .error out else .ok out

/-- Npm._exec: when not in check mode, or in check mode with
run_in_check_mode set, build and run the command (returning the trace of
executed commands and the run_command result); otherwise return the
empty string without invoking anything. -/
def execModel (checkMode : Bool) (c : Cmd) (rc : Nat) (out : String) :
    List Cmd × Except String String :=
  if !checkMode || (checkMode && cmdRunInCheckMode c) then
    ([c], runCommand (cmdCheckRc c) rc out)
  else
    ([], Except.ok "")

/-- The condition of the if/elif chain of Npm.list that routes a
dependency into the missing set: the missing field is present and
truthy, or the invalid field is present and truthy, or reqversion is
truthy and a version field is present and differs from reqversion. -/
def depGoesMissing (req : Option String) (info : DepInfo) : Bool :=
  if info.missing.getD false then true
  else if info.invalid.getD false then true
  else
    match req, info.version with
    | some r, some v => r ≠ "" && v ≠ r
    | _, _ => false

/-- The first loop of Npm.list over the dependencies object: each
dependency key is added to missing or to installed according to
depGoesMissing. -/
def processDeps (req : Option String) :
    List (String × DepInfo) → Finset String × Finset String → Finset String × Finset String
  | [], acc => acc
  | (dep, info) :: rest, (ins, mis) =>
    if depGoesMissing req info then processDeps req rest (ins, insert dep mis)
    else processDeps req rest (insert dep ins, mis)

/-- The two set-comprehension updates of Npm.list on the parsed outdated
output: first installed gains the packages not in missing whose location
field is truthy, then missing gains the packages not in the updated
installed set that have no current field. -/
def mergeOutdated (outd : List (String × OutInfo)) (installed missing : Finset String) :
    Finset String × Finset String :=
  let installed2 := installed ∪
    ((outd.filter (fun p => !(decide (p.1 ∈ missing)) && strTruthy p.2.location)).map
      Prod.fst).toFinset
  let missing2 := missing ∪
    ((outd.filter (fun p => !(decide (p.1 ∈ installed2)) && decide (p.2.current = none))).map
      Prod.fst).toFinset
  (installed2, missing2)

/-- The final step of Npm.list: when name is truthy and not in
installed, add it to missing. -/
def addNameMissing (name : Option String) (installed missing : Finset String) : Finset String :=
  match name with
  | some n => if n ≠ "" ∧ n ∉ installed then insert n missing else missing
  | none => missing

/-- Npm.list on a fixture, with the trace of executed commands. The
json.loads of the list --json output is not guarded: its parse failure
propagates as an uncaught ValueError (after the list command already
ran). The json.loads of the outdated --json output is guarded by except
ValueError: pass, so its parse failure leaves the sets from the first
loop unchanged. -/
def npmListT (npm : Npm) (fx : Fixture) :
    List Cmd × Except PyErr (Finset String × Finset String) :=
  match fx.listJson with
  | .error _ => ([Cmd.list], .error .valueError)
  | .ok data =>
    let s1 := match data with
      | some deps => processDeps npm.reqversion deps (∅, ∅)
      | none => ((∅ : Finset String), (∅ : Finset String))
    let s2 := match fx.outdatedJson with
      | .ok outd => mergeOutdated outd s1.1 s1.2
      | .error _ => s1
    ([Cmd.list, Cmd.outdated], .ok (s2.1, addNameMissing npm.name s2.1 s2.2))

/-- The helper _pkg_is_outdated of Npm.list_outdated: no current field
means not outdated; with a truthy reqversion, outdated iff current
differs from reqversion; otherwise outdated iff current differs from
wanted, where reading an absent wanted field raises KeyError (which
except ValueError does not catch). -/
def pkgIsOutdated (req : Option String) (info : OutInfo) : Except PyErr Bool :=
  match info.current with
  | none => .ok false
  | some cur =>
    if strTruthy req then .ok (decide (some cur ≠ req))
    else
      match info.wanted with
      | none => .error .keyError
      | some w => .ok (decide (cur ≠ w))

/-- The set comprehension of Npm.list_outdated over the parsed outdated
output, evaluated left to right with the first raised error
propagating. -/
def outdatedFold (req : Option String) :
    List (String × OutInfo) → Finset String → Except PyErr (Finset String)
  | [], acc => .ok acc
  | p :: rest, acc =>
    match pkgIsOutdated req p.2 with
    | .error e => .error e
    | .ok b => outdatedFold req rest (if b then insert p.1 acc else acc)

/-- Whether the character is one the regex split of the legacy fallback
cuts at: a whitespace character or the at sign. -/
def isSepChar (c : Char) : Bool :=
  c.isWhitespace || c = '@'

/-- One line of the legacy fallback: re.split on the first whitespace or
at sign, unpacked into the package name and the rest; a line with no
separator makes the unpacking raise ValueError. -/
def splitPkg (line : String) : Except PyErr (String × String) :=
  match line.data.findIdx? isSepChar with
  | none => .error .valueError
  | some i => .ok (⟨line.data.take i⟩, ⟨line.data.drop (i + 1)⟩)

/-- Whether the needle occurs as a contiguous substring of the
haystack (the Python in operator on strings). -/
def containsSub (hay needle : List Char) : Bool :=
  match hay with
  | [] => needle.isEmpty
  | _ :: t => needle.isPrefixOf hay || containsSub t needle

/-- The legacy line-oriented fallback of Npm.list_outdated: every
non-empty line contributes the text before the first whitespace or at
sign, skipping a header line whose first word lowercases to package and
whose remainder contains current. -/
def legacyOutdated : List String → Finset String → Except PyErr (Finset String)
  | [], acc => .ok acc
  | dep :: rest, acc =>
    if dep = "" then legacyOutdated rest acc
    else
      match splitPkg dep with
      | .error e => .error e
      | .ok (pkg, other) =>
        if pkg.toLower = "package" && containsSub other.toLower.data "current".data then
          legacyOutdated rest acc
        else legacyOutdated rest (insert pkg acc)

/-- Npm.list_outdated on a fixture, with the trace of executed commands:
try the JSON route, and on a ValueError of json.loads run the plain
outdated command and line-parse its output. -/
def listOutdatedT (npm : Npm) (fx : Fixture) : List Cmd × Except PyErr (Finset String) :=
  match fx.outdatedJson with
  | .ok data => ([Cmd.outdated], outdatedFold npm.reqversion data ∅)
  | .error _ => ([Cmd.outdated, Cmd.outdatedPlain], legacyOutdated fx.outdatedPlain ∅)

/-- The four option-combination checks at the top of main, in source
order, with the message of the first failing check. -/
def validate (p : Params) : Option String :=
  if ¬ strTruthy p.path ∧ ¬ p.glbl then
    some "path must be specified when not using global"
  else if p.state = "absent" ∧ ¬ strTruthy p.name then
    some "uninstalling a package is only available for named packages"
  else if p.state = "latest" ∧ strTruthy p.version then
    some "when requesting latest you cannot request a specific version"
  else if p.state = "absent" ∧ strTruthy p.version then
    some "when uninstalling packages you cannot request a specific version"
  else none

/-- The condition of the first branch of the latest state in main: no
module installed at all, or a truthy name that is not installed. -/
def needsInstallLatest (name : Option String) (installed : Finset String) : Bool :=
  decide (installed = ∅) ||
    (match name with
     | some n => (n ≠ "" : Bool) && !(decide (n ∈ installed))
     | none => false)

/-- The condition of the absent state in main: the name value is a
member of installed (None is never a member of a set of strings). -/
def nameInInstalled (name : Option String) (installed : Finset String) : Bool :=
  match name with
  | some n => decide (n ∈ installed)
  | none => false

/-- How a terminated run of main ended: fail_json with a message, or
exit_json with the changed flag. -/
inductive MainExit
  | failJson (msg : String)
  | exitJson (changed : Bool)
deriving DecidableEq

/-- The observable outcome of one run of main: the external commands
executed (in order), the Npm methods invoked, and how the run ended (or
the uncaught Python error that aborted it). -/
structure RunResult where
  exec : List Cmd
  called : List Meth
  outcome : Except PyErr MainExit

/-- One mutating step of main: set changed, invoke the Npm method, whose
_exec runs the command unless in check mode; a non-zero exit code under
check_rc=True ends the run in fail_json with the captured output,
otherwise the run ends in exit_json changed=True. -/
def mutStep (checkMode : Bool) (c : Cmd) (res : Nat × String) (tr : List Cmd)
    (ms : List Meth) (m : Meth) : RunResult :=
  match execModel checkMode c res.1 res.2 with
  | (tr2, .error msg) => ⟨tr ++ tr2, ms ++ [m], .ok (.failJson msg)⟩
  | (tr2, .ok _) => ⟨tr ++ tr2, ms ++ [m], .ok (.exitJson true)⟩

/-- main: validate the options (fail_json stops the run before any
external command), build the Npm object, compute installed and missing
via Npm.list, then per state decide whether a mutating command is
needed, and exit_json with the changed flag. -/
def npmMain (p : Params) (fx : Fixture) : RunResult :=
  match validate p with
  | some msg => ⟨[], [], .ok (.failJson msg)⟩
  | none =>
    let npm := mkNpm p
    let tr1 := (npmListT npm fx).1
    match (npmListT npm fx).2 with
    | .error e => ⟨tr1, [Meth.list], .error e⟩
    | .ok im =>
      let installed := im.1
      let missing := im.2
      if p.state = "present" then
        if missing ≠ ∅ ∨ installed = ∅ then
          mutStep p.checkMode .install fx.installRes tr1 [Meth.list] .install
        else ⟨tr1, [Meth.list], .ok (.exitJson false)⟩
      else if p.state = "latest" then
        let tr2 := (listOutdatedT npm fx).1
        match (listOutdatedT npm fx).2 with
        | .error e => ⟨tr1 ++ tr2, [Meth.list, Meth.listOutdated], .error e⟩
        | .ok outdated =>
          if needsInstallLatest p.name installed then
            mutStep p.checkMode .install fx.installRes (tr1 ++ tr2)
              [Meth.list, Meth.listOutdated] .install
          else if missing ≠ ∅ ∨ outdated ≠ ∅ then
            mutStep p.checkMode .update fx.updateRes (tr1 ++ tr2)
              [Meth.list, Meth.listOutdated] .update
          else ⟨tr1 ++ tr2, [Meth.list, Meth.listOutdated], .ok (.exitJson false)⟩
      else
        if nameInInstalled p.name installed then
          mutStep p.checkMode .uninstall fx.uninstallRes tr1 [Meth.list] .uninstall
        else ⟨tr1, [Meth.list], .ok (.exitJson false)⟩

/-! Helper lemmas: membership characterizations of the set computations. -/

lemma processDeps_cons (req : Option String) (dep : String) (info : DepInfo)
    (rest : List (String × DepInfo)) (ins mis : Finset String) :
    processDeps req ((dep, info) :: rest) (ins, mis) =
      if depGoesMissing req info then processDeps req rest (ins, insert dep mis)
      else processDeps req rest (insert dep ins, mis) := rfl

lemma processDeps_mem_fst (req : Option String) (deps : List (String × DepInfo)) :
    ∀ (acc : Finset String × Finset String) (x : String),
      x ∈ (processDeps req deps acc).1 ↔
        x ∈ acc.1 ∨ ∃ info, (x, info) ∈ deps ∧ depGoesMissing req info = false := by
  induction deps with
  | nil => intro acc x; simp [processDeps]
  | cons p rest ih =>
    rintro ⟨ins, mis⟩ x
    obtain ⟨dep, info⟩ := p
    by_cases h : depGoesMissing req info = true
    · rw [processDeps_cons, if_pos h, ih]
      simp only [List.mem_cons, Prod.mk.injEq]
      constructor
      · rintro (hx | ⟨i, hi, hc⟩)
        · exact Or.inl hx
        · exact Or.inr ⟨i, Or.inr hi, hc⟩
      · rintro (hx | ⟨i, (⟨hx, hi⟩ | hi), hc⟩)
        · exact Or.inl hx
        · subst hi; rw [h] at hc; cases hc
        · exact Or.inr ⟨i, hi, hc⟩
    · have hf : depGoesMissing req info = false := by simpa using h
      rw [processDeps_cons, if_neg h, ih]
      simp only [Finset.mem_insert, List.mem_cons, Prod.mk.injEq]
      constructor
      · rintro ((hx | hx) | ⟨i, hi, hc⟩)
        · exact Or.inr ⟨info, Or.inl ⟨hx, rfl⟩, hf⟩
        · exact Or.inl hx
        · exact Or.inr ⟨i, Or.inr hi, hc⟩
      · rintro (hx | ⟨i, (⟨hx, hi⟩ | hi), hc⟩)
        · exact Or.inl (Or.inr hx)
        · exact Or.inl (Or.inl hx)
        · exact Or.inr ⟨i, hi, hc⟩

lemma processDeps_mem_snd (req : Option String) (deps : List (String × DepInfo)) :
    ∀ (acc : Finset String × Finset String) (x : String),
      x ∈ (processDeps req deps acc).2 ↔
        x ∈ acc.2 ∨ ∃ info, (x, info) ∈ deps ∧ depGoesMissing req info = true := by
  induction deps with
  | nil => intro acc x; simp [processDeps]
  | cons p rest ih =>
    rintro ⟨ins, mis⟩ x
    obtain ⟨dep, info⟩ := p
    by_cases h : depGoesMissing req info = true
    · rw [processDeps_cons, if_pos h, ih]
      simp only [Finset.mem_insert, List.mem_cons, Prod.mk.injEq]
      constructor
      · rintro ((hx | hx) | ⟨i, hi, hc⟩)
        · exact Or.inr ⟨info, Or.inl ⟨hx, rfl⟩, h⟩
        · exact Or.inl hx
        · exact Or.inr ⟨i, Or.inr hi, hc⟩
      · rintro (hx | ⟨i, (⟨hx, hi⟩ | hi), hc⟩)
        · exact Or.inl (Or.inr hx)
        · exact Or.inl (Or.inl hx)
        · exact Or.inr ⟨i, hi, hc⟩
    · rw [processDeps_cons, if_neg h, ih]
      simp only [List.mem_cons, Prod.mk.injEq]
      constructor
      · rintro (hx | ⟨i, hi, hc⟩)
        · exact Or.inl hx
        · exact Or.inr ⟨i, Or.inr hi, hc⟩
      · rintro (hx | ⟨i, (⟨hx, hi⟩ | hi), hc⟩)
        · exact Or.inl hx
        · subst hi; exact absurd hc h
        · exact Or.inr ⟨i, hi, hc⟩

lemma keysNodup_eq {β : Type} {l : List (String × β)} (h : (l.map Prod.fst).Nodup)
    {x : String} {a b : β} (ha : (x, a) ∈ l) (hb : (x, b) ∈ l) : a = b := by
  induction l with
  | nil => cases ha
  | cons p rest ih =>
    simp only [List.map_cons, List.nodup_cons] at h
    rcases List.mem_cons.mp ha with h1 | h1 <;> rcases List.mem_cons.mp hb with h2 | h2
    · exact (Prod.ext_iff.mp (h1.trans h2.symm)).2
    · rw [← h1] at h; exact absurd (List.mem_map_of_mem Prod.fst h2) h.1
    · rw [← h2] at h; exact absurd (List.mem_map_of_mem Prod.fst h1) h.1
    · exact ih h.2 h1 h2

lemma depGoesMissing_iff (req : Option String) (info : DepInfo) :
    depGoesMissing req info = true ↔
      (info.missing = some true ∨ info.invalid = some true ∨
        ∃ r, req = some r ∧ r ≠ "" ∧ ∃ v, info.version = some v ∧ v ≠ r) := by
  obtain ⟨m, i, v⟩ := info
  unfold depGoesMissing
  rcases m with _ | _ | _ <;> rcases i with _ | _ | _ <;>
    rcases req with _ | r <;> rcases v with _ | vv <;>
      simp [Option.getD]

lemma mergeOutdated_fst_mem (outd : List (String × OutInfo)) (i m : Finset String)
    (x : String) :
    x ∈ (mergeOutdated outd i m).1 ↔
      x ∈ i ∨ ∃ info, (x, info) ∈ outd ∧ x ∉ m ∧ strTruthy info.location = true := by
  simp only [mergeOutdated, Finset.mem_union, List.mem_toFinset, List.mem_map,
    List.mem_filter, Bool.and_eq_true, Bool.not_eq_true', decide_eq_false_iff_not]
  constructor
  · rintro (hx | ⟨⟨y, info⟩, ⟨hy, hnm, hl⟩, hfst⟩)
    · exact Or.inl hx
    · cases hfst; exact Or.inr ⟨info, hy, hnm, hl⟩
  · rintro (hx | ⟨info, hy, hnm, hl⟩)
    · exact Or.inl hx
    · exact Or.inr ⟨(x, info), ⟨hy, hnm, hl⟩, rfl⟩

lemma mergeOutdated_snd_mem (outd : List (String × OutInfo)) (i m : Finset String)
    (x : String) :
    x ∈ (mergeOutdated outd i m).2 ↔
      x ∈ m ∨ ∃ info, (x, info) ∈ outd ∧ x ∉ (mergeOutdated outd i m).1 ∧
        info.current = none := by
  simp only [mergeOutdated, Finset.mem_union, List.mem_toFinset, List.mem_map,
    List.mem_filter, Bool.and_eq_true, Bool.not_eq_true', decide_eq_false_iff_not,
    decide_eq_true_eq]
  constructor
  · rintro (hx | ⟨⟨y, info⟩, ⟨hy, hni, hc⟩, hfst⟩)
    · exact Or.inl hx
    · cases hfst; exact Or.inr ⟨info, hy, hni, hc⟩
  · rintro (hx | ⟨info, hy, hni, hc⟩)
    · exact Or.inl hx
    · exact Or.inr ⟨(x, info), ⟨hy, hni, hc⟩, rfl⟩

lemma addNameMissing_mem (name : Option String) (i m : Finset String) (x : String) :
    x ∈ addNameMissing name i m ↔
      x ∈ m ∨ (name = some x ∧ x ≠ "" ∧ x ∉ i) := by
  cases name with
  | none => simp [addNameMissing]
  | some n =>
    by_cases h : n ≠ "" ∧ n ∉ i
    · simp only [addNameMissing, if_pos h, Finset.mem_insert, Option.some.injEq]
      constructor
      · rintro (hx | hx)
        · exact Or.inr ⟨hx.symm, hx ▸ h⟩
        · exact Or.inl hx
      · rintro (hx | ⟨hx, _⟩)
        · exact Or.inr hx
        · exact Or.inl hx.symm
    · simp only [addNameMissing, if_neg h, Option.some.injEq]
      constructor
      · exact Or.inl
      · rintro (hx | ⟨hx, hne, hni⟩)
        · exact hx
        · exact absurd (hx ▸ ⟨hne, hni⟩) h

lemma outdatedFold_mem (req : Option String) (data : List (String × OutInfo)) :
    ∀ (acc od : Finset String), outdatedFold req data acc = .ok od →
      ∀ x, x ∈ od ↔ x ∈ acc ∨
        ∃ info, (x, info) ∈ data ∧ pkgIsOutdated req info = .ok true := by
  induction data with
  | nil =>
    intro acc od h x
    simp only [outdatedFold, Except.ok.injEq] at h
    subst h; simp
  | cons p rest ih =>
    intro acc od h x
    obtain ⟨pkg, info⟩ := p
    simp only [outdatedFold] at h
    rcases hp : pkgIsOutdated req info with e | b
    · rw [hp] at h; cases h
    · rw [hp] at h
      have hx := ih _ _ h x
      cases b with
      | true =>
        simp only [if_true] at hx
        rw [hx]
        simp only [Finset.mem_insert, List.mem_cons, Prod.mk.injEq]
        constructor
        · rintro ((h1 | h1) | ⟨i, hi, hc⟩)
          · exact Or.inr ⟨info, Or.inl ⟨h1, rfl⟩, hp⟩
          · exact Or.inl h1
          · exact Or.inr ⟨i, Or.inr hi, hc⟩
        · rintro (h1 | ⟨i, (⟨h1, h2⟩ | hi), hc⟩)
          · exact Or.inl (Or.inr h1)
          · exact Or.inl (Or.inl h1)
          · exact Or.inr ⟨i, hi, hc⟩
      | false =>
        simp only [Bool.false_eq_true, if_false] at hx
        rw [hx]
        simp only [List.mem_cons, Prod.mk.injEq]
        constructor
        · rintro (h1 | ⟨i, hi, hc⟩)
          · exact Or.inl h1
          · exact Or.inr ⟨i, Or.inr hi, hc⟩
        · rintro (h1 | ⟨i, (⟨h1, h2⟩ | hi), hc⟩)
          · exact Or.inl h1
          · subst h2; rw [hp] at hc; cases hc
          · exact Or.inr ⟨i, hi, hc⟩

lemma pkgIsOutdated_ok_iff (req : Option String) (info : OutInfo) (b : Bool)
    (h : pkgIsOutdated req info = .ok b) :
    b = true ↔ ∃ c, info.current = some c ∧
      ((strTruthy req = true ∧ some c ≠ req) ∨
       (strTruthy req = false ∧ ∃ w, info.wanted = some w ∧ c ≠ w)) := by
  obtain ⟨l, cur, w⟩ := info
  rcases cur with _ | c
  · simp only [pkgIsOutdated, Except.ok.injEq] at h
    subst h; simp
  · by_cases ht : strTruthy req = true
    · simp only [pkgIsOutdated, ht, if_true, Except.ok.injEq] at h
      subst h
      simp only [decide_eq_true_eq, Option.some.injEq]
      constructor
      · intro hne; exact ⟨c, rfl, Or.inl ⟨ht, hne⟩⟩
      · rintro ⟨c2, hc2, (⟨_, hne⟩ | ⟨hf, _⟩)⟩
        · exact hc2 ▸ hne
        · rw [ht] at hf; cases hf
    · rcases w with _ | wv
      · simp only [pkgIsOutdated, ht, Bool.false_eq_true, if_false] at h; cases h
      · simp only [pkgIsOutdated, ht, Bool.false_eq_true, if_false, Except.ok.injEq] at h
        subst h
        simp only [decide_eq_true_eq, Option.some.injEq]
        constructor
        · intro hne
          exact ⟨c, rfl, Or.inr ⟨Bool.not_eq_true _ ▸ ht, wv, rfl, hne⟩⟩
        · rintro ⟨c2, hc2, (⟨htt, _⟩ | ⟨_, w2, hw2, hne⟩)⟩
          · exact absurd htt ht
          · cases hc2; cases hw2; exact hne

lemma npmListT_trace (npm : Npm) (fx : Fixture) :
    (npmListT npm fx).1 = [Cmd.list] ∨ (npmListT npm fx).1 = [Cmd.list, Cmd.outdated] := by
  unfold npmListT
  rcases fx.listJson with e | d <;> simp

lemma listOutdatedT_trace (npm : Npm) (fx : Fixture) :
    (listOutdatedT npm fx).1 = [Cmd.outdated] ∨
      (listOutdatedT npm fx).1 = [Cmd.outdated, Cmd.outdatedPlain] := by
  unfold listOutdatedT
  rcases fx.outdatedJson with e | d <;> simp

/-! Concrete inputs used by the witnesses. -/

/-- A benign fixture: both JSON outputs parse, one dependency a at
version 1.0 is installed, nothing is outdated, all commands succeed. -/
def fxGood : Fixture :=
  { listJson := .ok (some [("a", ⟨none, none, some "1.0"⟩)])
    outdatedJson := .ok []
    outdatedPlain := []
    installRes := (0, "")
    updateRes := (0, "")
    uninstallRes := (0, "") }

/-- Valid parameters: state present with a path, no name, no version. -/
def pPresent : Params :=
  { name := none, path := some "/app", version := none, glbl := false
    state := "present", checkMode := false }

/-- Invalid parameters: state absent with a version. -/
def pAbsentVer : Params :=
  { name := some "a", path := some "/app", version := some "1.0", glbl := false
    state := "absent", checkMode := false }

/-- C2: for every input with an invalid option combination (absent with
a version, latest with a version, absent without a name, or neither
path nor global), the run ends in fail_json with an error message and
no external command is invoked. -/
theorem C2_invalid_options_fail_before_invocation (p : Params) (fx : Fixture)
    (h : (p.state = "absent" ∧ strTruthy p.version = true) ∨
         (p.state = "latest" ∧ strTruthy p.version = true) ∨
         (p.state = "absent" ∧ ¬ strTruthy p.name = true) ∨
         (¬ strTruthy p.path = true ∧ ¬ p.glbl = true)) :
    (npmMain p fx).exec = [] ∧ (npmMain p fx).called = [] ∧
      ∃ msg, (npmMain p fx).outcome = .ok (.failJson msg) := by
  have hv : ∃ msg, validate p = some msg := by
    unfold validate
    split_ifs with h1 h2 h3 h4
    · exact ⟨_, rfl⟩
    · exact ⟨_, rfl⟩
    · exact ⟨_, rfl⟩
    · exact ⟨_, rfl⟩
    · rcases h with ⟨hs, hvv⟩ | ⟨hs, hvv⟩ | ⟨hs, hn⟩ | ⟨hp2, hg⟩
      · exact absurd ⟨hs, hvv⟩ h4
      · exact absurd ⟨hs, hvv⟩ h3
      · exact absurd ⟨hs, hn⟩ h2
      · exact absurd ⟨hp2, hg⟩ h1
  obtain ⟨msg, hm⟩ := hv
  refine ⟨?_, ?_, msg, ?_⟩ <;> simp [npmMain, hm]

/-- Witness for C2 at a concrete invalid input: state absent together
with a version. -/
theorem C2_witness :
    (npmMain pAbsentVer fxGood).exec = [] ∧ (npmMain pAbsentVer fxGood).called = [] ∧
      ∃ msg, (npmMain pAbsentVer fxGood).outcome = .ok (.failJson msg) :=
  C2_invalid_options_fail_before_invocation pAbsentVer fxGood
    (Or.inl ⟨rfl, by decide⟩)

/-- C1: a run against an already-satisfied desired state triggers no
mutating command and reports changed false: with state present, empty
missing and non-empty installed; with state latest, non-empty installed,
the truthy name (when given) installed, and empty missing and outdated;
with state absent, the name not installed. In each case the only Npm
methods invoked are the inspections and the run ends in exit_json with
changed false. -/
theorem C1_satisfied_state_never_mutates (p : Params) (fx : Fixture)
    (i m : Finset String) (hv : validate p = none)
    (hl : (npmListT (mkNpm p) fx).2 = .ok (i, m)) :
    (p.state = "present" → m = ∅ → i ≠ ∅ →
        (npmMain p fx).called = [Meth.list] ∧
        (npmMain p fx).outcome = .ok (.exitJson false))
  ∧ (p.state = "latest" → ∀ od, (listOutdatedT (mkNpm p) fx).2 = .ok od →
        i ≠ ∅ → (∀ n, p.name = some n → n ≠ "" → n ∈ i) → m = ∅ → od = ∅ →
        (npmMain p fx).called = [Meth.list, Meth.listOutdated] ∧
        (npmMain p fx).outcome = .ok (.exitJson false))
  ∧ (p.state = "absent" → (∀ n, p.name = some n → n ∉ i) →
        (npmMain p fx).called = [Meth.list] ∧
        (npmMain p fx).outcome = .ok (.exitJson false)) := by
  refine ⟨?_, ?_, ?_⟩
  · intro hs hm hi
    have hcond : ¬(m ≠ ∅ ∨ i = ∅) := fun hc => hc.elim (fun hne => hne hm) hi
    simp [npmMain, hv, hl, hs, hcond]
  · intro hs od hlo hi hn hm hod
    have h1 : needsInstallLatest p.name i = false := by
      unfold needsInstallLatest
      cases hn2 : p.name with
      | none => simp [hi]
      | some n =>
        by_cases he : n = ""
        · simp [hi, he]
        · simp [hi, he, hn n hn2 he]
    have hcond : ¬(m ≠ ∅ ∨ od ≠ ∅) := fun hc => hc.elim (fun x => x hm) (fun x => x hod)
    simp [npmMain, hv, hl, hs, hlo, h1, hcond]
  · intro hs hn
    have h1 : nameInInstalled p.name i = false := by
      unfold nameInInstalled
      cases hn2 : p.name with
      | none => rfl
      | some n => simp [hn n hn2]
    simp [npmMain, hv, hl, hs, h1]

/-- Witness for C1: the present scenario at the concrete satisfied
fixture fxGood under pPresent. -/
theorem C1_witness :
    (npmMain pPresent fxGood).called = [Meth.list] ∧
      (npmMain pPresent fxGood).outcome = .ok (.exitJson false) :=
  (C1_satisfied_state_never_mutates pPresent fxGood
      {"a"} ∅ (by decide)
      (by simp [npmListT, fxGood, pPresent, mkNpm, strTruthy, processDeps,
        depGoesMissing, mergeOutdated, addNameMissing])).1
    rfl rfl (by decide)

/-- C7: the installed/missing/outdated set computation is a pure
function of the fixture and the options, so two runs of Npm.list and of
Npm.list_outdated on the same fixture and options produce equal
results. -/
theorem C7_set_computation_deterministic (npm : Npm) (fx : Fixture)
    (r1 r2 : List Cmd × Except PyErr (Finset String × Finset String))
    (o1 o2 : List Cmd × Except PyErr (Finset String))
    (h1 : r1 = npmListT npm fx) (h2 : r2 = npmListT npm fx)
    (h3 : o1 = listOutdatedT npm fx) (h4 : o2 = listOutdatedT npm fx) :
    r1 = r2 ∧ o1 = o2 :=
  ⟨h1.trans h2.symm, h3.trans h4.symm⟩

/-- Witness for C7 at the concrete fixture fxGood. -/
theorem C7_witness :
    npmListT (mkNpm pPresent) fxGood = npmListT (mkNpm pPresent) fxGood ∧
      listOutdatedT (mkNpm pPresent) fxGood = listOutdatedT (mkNpm pPresent) fxGood :=
  C7_set_computation_deterministic (mkNpm pPresent) fxGood _ _ _ _ rfl rfl rfl rfl

/-- The mutating step as a single equation: the executed trace extends
by the execModel trace, the method is recorded, and the outcome is
failJson on a run_command failure and exit_json changed=True
otherwise. -/
lemma mutStep_eq (checkMode : Bool) (c : Cmd) (res : Nat × String) (tr : List Cmd)
    (ms : List Meth) (m : Meth) :
    mutStep checkMode c res tr ms m =
      ⟨tr ++ (execModel checkMode c res.1 res.2).1, ms ++ [m],
        .ok (match (execModel checkMode c res.1 res.2).2 with
             | .error msg => .failJson msg
             | .ok _ => .exitJson true)⟩ := by
  unfold mutStep
  rcases h : execModel checkMode c res.1 res.2 with ⟨tr2, msg | out⟩ <;> simp [h]

/-- Exhaustive enumeration of the possible results of one run of main:
fail_json from validation, an uncaught error from Npm.list, a no-change
exit, an uncaught error from Npm.list_outdated, a latest no-change
exit, or one of the four mutating steps, each tagged with the state
that reaches it. -/
lemma npmMain_shape (p : Params) (fx : Fixture) :
    (∃ msg, validate p = some msg ∧ npmMain p fx = ⟨[], [], .ok (.failJson msg)⟩) ∨
    (∃ e, (npmListT (mkNpm p) fx).2 = .error e ∧
      npmMain p fx = ⟨(npmListT (mkNpm p) fx).1, [Meth.list], .error e⟩) ∨
    (p.state ≠ "latest" ∧
      npmMain p fx = ⟨(npmListT (mkNpm p) fx).1, [Meth.list], .ok (.exitJson false)⟩) ∨
    (∃ e, p.state = "latest" ∧ npmMain p fx =
      ⟨(npmListT (mkNpm p) fx).1 ++ (listOutdatedT (mkNpm p) fx).1,
       [Meth.list, Meth.listOutdated], .error e⟩) ∨
    (p.state = "latest" ∧ npmMain p fx =
      ⟨(npmListT (mkNpm p) fx).1 ++ (listOutdatedT (mkNpm p) fx).1,
       [Meth.list, Meth.listOutdated], .ok (.exitJson false)⟩) ∨
    (p.state = "present" ∧ npmMain p fx =
      mutStep p.checkMode .install fx.installRes (npmListT (mkNpm p) fx).1
        [Meth.list] .install) ∨
    (p.state = "latest" ∧ npmMain p fx =
      mutStep p.checkMode .install fx.installRes
        ((npmListT (mkNpm p) fx).1 ++ (listOutdatedT (mkNpm p) fx).1)
        [Meth.list, Meth.listOutdated] .install) ∨
    (p.state = "latest" ∧ npmMain p fx =
      mutStep p.checkMode .update fx.updateRes
        ((npmListT (mkNpm p) fx).1 ++ (listOutdatedT (mkNpm p) fx).1)
        [Meth.list, Meth.listOutdated] .update) ∨
    (p.state ≠ "latest" ∧ p.state ≠ "present" ∧ npmMain p fx =
      mutStep p.checkMode .uninstall fx.uninstallRes (npmListT (mkNpm p) fx).1
        [Meth.list] .uninstall) := by
  rcases hval : validate p with _ | msg
  rotate_left
  · exact Or.inl ⟨msg, rfl, by simp [npmMain, hval]⟩
  · rcases hlist : (npmListT (mkNpm p) fx).2 with e | ⟨i, m⟩
    · exact Or.inr (Or.inl ⟨e, rfl, by simp [npmMain, hval, hlist]⟩)
    · by_cases h1 : p.state = "present"
      · by_cases h2 : ¬m = ∅ ∨ i = ∅
        · refine Or.inr (Or.inr (Or.inr (Or.inr (Or.inr (Or.inl ⟨h1, ?_⟩)))))
          simp [npmMain, hval, hlist, h1, h2]
        · refine Or.inr (Or.inr (Or.inl ⟨by rw [h1]; decide, ?_⟩))
          simp [npmMain, hval, hlist, h1, h2]
      · by_cases h3 : p.state = "latest"
        · rcases hout : (listOutdatedT (mkNpm p) fx).2 with e | od
          · refine Or.inr (Or.inr (Or.inr (Or.inl ⟨e, h3, ?_⟩)))
            simp [npmMain, hval, hlist, hout, h1, h3]
          · by_cases h4 : needsInstallLatest p.name i = true
            · refine Or.inr (Or.inr (Or.inr (Or.inr (Or.inr (Or.inr (Or.inl
                ⟨h3, ?_⟩))))))
              simp [npmMain, hval, hlist, hout, h1, h3, h4]
            · by_cases h5 : ¬m = ∅ ∨ ¬od = ∅
              · refine Or.inr (Or.inr (Or.inr (Or.inr (Or.inr (Or.inr (Or.inr
                  (Or.inl ⟨h3, ?_⟩)))))))
                simp [npmMain, hval, hlist, hout, h1, h3, h4, h5]
              · refine Or.inr (Or.inr (Or.inr (Or.inr (Or.inl ⟨h3, ?_⟩))))
                simp [npmMain, hval, hlist, hout, h1, h3, h4, h5]
        · by_cases h6 : nameInInstalled p.name i = true
          · refine Or.inr (Or.inr (Or.inr (Or.inr (Or.inr (Or.inr (Or.inr (Or.inr
              ⟨h3, h1, ?_⟩)))))))
            simp [npmMain, hval, hlist, h1, h3, h6]
          · refine Or.inr (Or.inr (Or.inl ⟨h3, ?_⟩))
            simp [npmMain, hval, hlist, h1, h3, h6]

/-- C8: a successful run (one that reaches exit_json) reports changed
true exactly when a mutating Npm method (install, update or uninstall)
was invoked during the run. -/
theorem C8_changed_iff_mutating_invoked (p : Params) (fx : Fixture) :
    ∀ ch, (npmMain p fx).outcome = .ok (.exitJson ch) →
      (ch = true ↔ (Meth.install ∈ (npmMain p fx).called ∨
                    Meth.update ∈ (npmMain p fx).called ∨
                    Meth.uninstall ∈ (npmMain p fx).called)) := by
  have hmut : ∀ (c : Cmd) (res : Nat × String) (tr : List Cmd) (ms : List Meth)
      (m : Meth) (ch : Bool), npmMain p fx = mutStep p.checkMode c res tr ms m →
      (npmMain p fx).outcome = .ok (.exitJson ch) →
      (m ∈ (npmMain p fx).called ∧ ch = true) := by
    intro c res tr ms m ch hr hch
    rw [hr, mutStep_eq] at hch ⊢
    refine ⟨by simp, ?_⟩
    rcases hx : (execModel p.checkMode c res.1 res.2).2 with msg2 | out2
    · rw [hx] at hch; simp at hch
    · rw [hx] at hch; simp at hch; exact hch
  intro ch hch
  rcases npmMain_shape p fx with ⟨msg, _, hr⟩ | ⟨e, _, hr⟩ | ⟨_, hr⟩ | ⟨e, _, hr⟩ |
    ⟨_, hr⟩ | ⟨_, hr⟩ | ⟨_, hr⟩ | ⟨_, hr⟩ | ⟨_, _, hr⟩
  · rw [hr] at hch; simp at hch
  · rw [hr] at hch; simp at hch
  · rw [hr] at hch ⊢; simp at hch ⊢; simp [← hch]
  · rw [hr] at hch; simp at hch
  · rw [hr] at hch ⊢; simp at hch ⊢; simp [← hch]
  · obtain ⟨hm, hc⟩ := hmut _ _ _ _ _ ch hr hch
    exact iff_of_true hc (Or.inl hm)
  · obtain ⟨hm, hc⟩ := hmut _ _ _ _ _ ch hr hch
    exact iff_of_true hc (Or.inl hm)
  · obtain ⟨hm, hc⟩ := hmut _ _ _ _ _ ch hr hch
    exact iff_of_true hc (Or.inr (Or.inl hm))
  · obtain ⟨hm, hc⟩ := hmut _ _ _ _ _ ch hr hch
    exact iff_of_true hc (Or.inr (Or.inr hm))

/-- Witness for C8: the concrete satisfied run reports changed false
and invoked no mutating method. -/
theorem C8_witness :
    (false = true ↔ (Meth.install ∈ (npmMain pPresent fxGood).called ∨
                     Meth.update ∈ (npmMain pPresent fxGood).called ∨
                     Meth.uninstall ∈ (npmMain pPresent fxGood).called)) :=
  C8_changed_iff_mutating_invoked pPresent fxGood false rfl

/-- Disjointness is preserved by the outdated merge of Npm.list: the
guards of the two comprehensions never put a package in both sets. -/
lemma mergeOutdated_disjoint (outd : List (String × OutInfo)) (i m : Finset String)
    (hd : ∀ x, x ∈ i → x ∉ m) :
    ∀ x, x ∈ (mergeOutdated outd i m).1 → x ∉ (mergeOutdated outd i m).2 := by
  intro x hx hx2
  rcases (mergeOutdated_snd_mem outd i m x).mp hx2 with hm | ⟨info, hmem, hni, hc⟩
  · rcases (mergeOutdated_fst_mem outd i m x).mp hx with hi | ⟨info2, hmem2, hnm, hl2⟩
    · exact hd x hi hm
    · exact hnm hm
  · exact hni hx

/-- Disjointness is preserved by the final name check of Npm.list. -/
lemma addNameMissing_disjoint (name : Option String) (i m : Finset String)
    (hd : ∀ x, x ∈ i → x ∉ m) :
    ∀ x, x ∈ i → x ∉ addNameMissing name i m := by
  intro x hx hmem
  rcases (addNameMissing_mem name i m x).mp hmem with hm | ⟨_, _, hni⟩
  · exact hd x hx hm
  · exact hni hx

/-- The two sets of the first loop of Npm.list are disjoint when the
dependency keys are distinct (they are: Python dict keys are unique). -/
lemma processDeps_disjoint (req : Option String) (deps : List (String × DepInfo))
    (hnd : (deps.map Prod.fst).Nodup) :
    ∀ x, x ∈ (processDeps req deps (∅, ∅)).1 → x ∉ (processDeps req deps (∅, ∅)).2 := by
  intro x hx hx2
  rcases (processDeps_mem_fst req deps (∅, ∅) x).mp hx with hx | ⟨info, hmem, hc⟩
  · exact absurd hx (Finset.not_mem_empty x)
  · rcases (processDeps_mem_snd req deps (∅, ∅) x).mp hx2 with hx2 | ⟨info2, hmem2, hc2⟩
    · exact absurd hx2 (Finset.not_mem_empty x)
    · rw [keysNodup_eq hnd hmem hmem2, hc2] at hc
      cases hc

/-- C9: the installed and missing sets returned by Npm.list are
disjoint: no package name appears in both, for any fixture and
options (with the dependency keys unique, as Python dict keys are). -/
theorem C9_installed_missing_disjoint (npm : Npm) (fx : Fixture) (i m : Finset String)
    (hnd : ∀ deps, fx.listJson = Except.ok (some deps) → (deps.map Prod.fst).Nodup)
    (hl : (npmListT npm fx).2 = .ok (i, m)) :
    i ∩ m = ∅ := by
  have hdisj : ∀ x, x ∈ i → x ∉ m := by
    rcases hj : fx.listJson with e | (_ | deps) <;>
      rcases hj2 : fx.outdatedJson with e2 | outd <;>
      simp only [npmListT, hj, hj2, Except.ok.injEq, Prod.mk.injEq] at hl
    · exact absurd hl (by simp)
    · exact absurd hl (by simp)
    · obtain ⟨hi, hm⟩ := hl
      subst hi; subst hm
      intro x hx
      exact absurd hx (Finset.not_mem_empty x)
    · obtain ⟨hi, hm⟩ := hl
      subst hi; subst hm
      exact addNameMissing_disjoint npm.name _ _
        (mergeOutdated_disjoint outd ∅ ∅
          (fun y hy => absurd hy (Finset.not_mem_empty y)))
    · obtain ⟨hi, hm⟩ := hl
      subst hi; subst hm
      exact addNameMissing_disjoint npm.name _ _
        (processDeps_disjoint npm.reqversion deps (hnd deps hj))
    · obtain ⟨hi, hm⟩ := hl
      subst hi; subst hm
      exact addNameMissing_disjoint npm.name _ _
        (mergeOutdated_disjoint outd _ _
          (processDeps_disjoint npm.reqversion deps (hnd deps hj)))
  rw [Finset.eq_empty_iff_forall_not_mem]
  intro x hx
  rw [Finset.mem_inter] at hx
  exact hdisj x hx.1 hx.2

/-- Witness for C9 at the concrete fixture fxGood. -/
theorem C9_witness : ({"a"} : Finset String) ∩ (∅ : Finset String) = ∅ :=
  C9_installed_missing_disjoint (mkNpm pPresent) fxGood {"a"} ∅
    (by intro deps h; simp only [fxGood, Except.ok.injEq, Option.some.injEq] at h
        subst h; simp)
    (by simp [npmListT, fxGood, pPresent, mkNpm, strTruthy, processDeps,
      depGoesMissing, mergeOutdated, addNameMissing])

/-- In check mode, an _exec whose call site does not pass
run_in_check_mode returns the empty string and runs nothing. -/
lemma execModel_checkMode_mut (c : Cmd) (hc : cmdRunInCheckMode c = false)
    (rc : Nat) (out : String) :
    execModel true c rc out = ([], Except.ok "") := by
  simp [execModel, hc]

/-- Under check mode a mutating step adds nothing to the executed
trace. -/
lemma mutStep_checkMode_exec (c : Cmd) (hc : cmdRunInCheckMode c = false)
    (res : Nat × String) (tr : List Cmd) (ms : List Meth) (m : Meth) :
    (mutStep true c res tr ms m).exec = tr := by
  rw [mutStep_eq, execModel_checkMode_mut c hc]
  simp

/-- A command that is none of list, outdated and outdatedPlain never
occurs in the traces of the inspection methods. -/
lemma mut_not_mem_inspect_traces (npm : Npm) (fx : Fixture) (c : Cmd)
    (h1 : c ≠ Cmd.list) (h2 : c ≠ Cmd.outdated) (h3 : c ≠ Cmd.outdatedPlain) :
    c ∉ (npmListT npm fx).1 ∧ c ∉ (listOutdatedT npm fx).1 := by
  rcases npmListT_trace npm fx with h | h <;>
    rcases listOutdatedT_trace npm fx with h' | h' <;> rw [h, h'] <;>
    exact ⟨by simp [h1, h2], by simp [h2, h3]⟩

/-- The list command is always in the trace of Npm.list. -/
lemma list_mem_npmListT_trace (npm : Npm) (fx : Fixture) :
    Cmd.list ∈ (npmListT npm fx).1 := by
  rcases npmListT_trace npm fx with h | h <;> rw [h] <;> simp

/-- When the list output parses, Npm.list runs exactly the list and
outdated commands. -/
lemma npmListT_trace_ok (npm : Npm) (fx : Fixture)
    (d : Option (List (String × DepInfo))) (h : fx.listJson = Except.ok d) :
    (npmListT npm fx).1 = [Cmd.list, Cmd.outdated] := by
  simp [npmListT, h]

/-- C10: in check mode the mutating _exec calls return the empty string
without running anything, so install, update and uninstall are never
executed; the inspection commands still run: after a passing validation
the list command is always executed, and the outdated command too once
the list output parses. -/
theorem C10_check_mode_semantics :
    ((∀ rc out, execModel true Cmd.install rc out = ([], Except.ok "")) ∧
     (∀ rc out, execModel true Cmd.update rc out = ([], Except.ok "")) ∧
     (∀ rc out, execModel true Cmd.uninstall rc out = ([], Except.ok "")))
  ∧ (∀ p fx, p.checkMode = true →
      Cmd.install ∉ (npmMain p fx).exec ∧ Cmd.update ∉ (npmMain p fx).exec ∧
        Cmd.uninstall ∉ (npmMain p fx).exec)
  ∧ (∀ p fx, validate p = none → Cmd.list ∈ (npmMain p fx).exec)
  ∧ (∀ p fx d, validate p = none → fx.listJson = Except.ok d →
      Cmd.outdated ∈ (npmMain p fx).exec) := by
  refine ⟨⟨fun rc out => execModel_checkMode_mut Cmd.install rfl rc out,
           fun rc out => execModel_checkMode_mut Cmd.update rfl rc out,
           fun rc out => execModel_checkMode_mut Cmd.uninstall rfl rc out⟩, ?_, ?_, ?_⟩
  · intro p fx hcm
    have hins := mut_not_mem_inspect_traces (mkNpm p) fx Cmd.install
      (by decide) (by decide) (by decide)
    have hup := mut_not_mem_inspect_traces (mkNpm p) fx Cmd.update
      (by decide) (by decide) (by decide)
    have hun := mut_not_mem_inspect_traces (mkNpm p) fx Cmd.uninstall
      (by decide) (by decide) (by decide)
    rcases npmMain_shape p fx with ⟨msg, _, hr⟩ | ⟨e, _, hr⟩ | ⟨_, hr⟩ | ⟨e, _, hr⟩ |
      ⟨_, hr⟩ | ⟨_, hr⟩ | ⟨_, hr⟩ | ⟨_, hr⟩ | ⟨_, _, hr⟩ <;> rw [hr]
    · simp
    · exact ⟨hins.1, hup.1, hun.1⟩
    · exact ⟨hins.1, hup.1, hun.1⟩
    · simp only [List.mem_append]
      exact ⟨by simp [hins.1, hins.2], by simp [hup.1, hup.2], by simp [hun.1, hun.2]⟩
    · simp only [List.mem_append]
      exact ⟨by simp [hins.1, hins.2], by simp [hup.1, hup.2], by simp [hun.1, hun.2]⟩
    · rw [hcm, mutStep_checkMode_exec Cmd.install rfl]
      exact ⟨hins.1, hup.1, hun.1⟩
    · rw [hcm, mutStep_checkMode_exec Cmd.install rfl]
      simp only [List.mem_append]
      exact ⟨by simp [hins.1, hins.2], by simp [hup.1, hup.2], by simp [hun.1, hun.2]⟩
    · rw [hcm, mutStep_checkMode_exec Cmd.update rfl]
      simp only [List.mem_append]
      exact ⟨by simp [hins.1, hins.2], by simp [hup.1, hup.2], by simp [hun.1, hun.2]⟩
    · rw [hcm, mutStep_checkMode_exec Cmd.uninstall rfl]
      exact ⟨hins.1, hup.1, hun.1⟩
  · intro p fx hv
    rcases npmMain_shape p fx with ⟨msg, hsome, hr⟩ | ⟨e, _, hr⟩ | ⟨_, hr⟩ | ⟨e, _, hr⟩ |
      ⟨_, hr⟩ | ⟨_, hr⟩ | ⟨_, hr⟩ | ⟨_, hr⟩ | ⟨_, _, hr⟩ <;>
      [rw [hv] at hsome; skip; skip; skip; skip; skip; skip; skip; skip]
    · cases hsome
    all_goals rw [hr]
    all_goals simp [mutStep_eq, List.mem_append, list_mem_npmListT_trace]
  · intro p fx d hv hd
    have htr := npmListT_trace_ok (mkNpm p) fx d hd
    rcases npmMain_shape p fx with ⟨msg, hsome, hr⟩ | ⟨e, _, hr⟩ | ⟨_, hr⟩ | ⟨e, _, hr⟩ |
      ⟨_, hr⟩ | ⟨_, hr⟩ | ⟨_, hr⟩ | ⟨_, hr⟩ | ⟨_, _, hr⟩ <;>
      [rw [hv] at hsome; skip; skip; skip; skip; skip; skip; skip; skip]
    · cases hsome
    all_goals rw [hr]
    all_goals simp [mutStep_eq, List.mem_append, htr]

/-- Check-mode variant of the valid present parameters. -/
def pCheck : Params :=
  { name := none, path := some "/app", version := none, glbl := false
    state := "present", checkMode := true }

/-- Witness for C10 at concrete inputs: a failing install in check mode
runs nothing, and the concrete check-mode run executes the inspections
but no mutating command. -/
theorem C10_witness :
    execModel true Cmd.install 1 "boom" = ([], Except.ok "") ∧
      Cmd.install ∉ (npmMain pCheck fxGood).exec ∧
      Cmd.list ∈ (npmMain pCheck fxGood).exec ∧
      Cmd.outdated ∈ (npmMain pCheck fxGood).exec :=
  ⟨C10_check_mode_semantics.1.1 1 "boom",
   (C10_check_mode_semantics.2.1 pCheck fxGood rfl).1,
   C10_check_mode_semantics.2.2.1 pCheck fxGood (by decide),
   C10_check_mode_semantics.2.2.2 pCheck fxGood (some [("a", ⟨none, none, some "1.0"⟩)])
     (by decide) rfl⟩

/-- C5: a dependency of the parsed list output is placed in missing
exactly when its missing field is reported truthy, its invalid field is
reported truthy, or a version was requested (truthy) and the reported
version field differs from it; otherwise it is placed in installed
(dependency keys are unique, as Python dict keys are). -/
theorem C5_dependency_placement (req : Option String) (deps : List (String × DepInfo))
    (hnd : (deps.map Prod.fst).Nodup) (dep : String) (info : DepInfo)
    (hmem : (dep, info) ∈ deps) :
    (dep ∈ (processDeps req deps (∅, ∅)).2 ↔
      (info.missing = some true ∨ info.invalid = some true ∨
        ∃ r, req = some r ∧ r ≠ "" ∧ ∃ v, info.version = some v ∧ v ≠ r))
  ∧ (dep ∈ (processDeps req deps (∅, ∅)).1 ↔
      ¬(info.missing = some true ∨ info.invalid = some true ∨
        ∃ r, req = some r ∧ r ≠ "" ∧ ∃ v, info.version = some v ∧ v ≠ r)) := by
  constructor
  · rw [processDeps_mem_snd]
    simp only [Finset.not_mem_empty, false_or]
    constructor
    · rintro ⟨info2, hmem2, hc⟩
      rw [keysNodup_eq hnd hmem2 hmem] at hc
      exact (depGoesMissing_iff req info).mp hc
    · intro hc
      exact ⟨info, hmem, (depGoesMissing_iff req info).mpr hc⟩
  · rw [processDeps_mem_fst]
    simp only [Finset.not_mem_empty, false_or]
    constructor
    · rintro ⟨info2, hmem2, hc⟩ hcontra
      rw [keysNodup_eq hnd hmem2 hmem] at hc
      rw [(depGoesMissing_iff req info).mpr hcontra] at hc
      cases hc
    · intro hc
      refine ⟨info, hmem, ?_⟩
      cases h : depGoesMissing req info with
      | false => rfl
      | true => exact absurd ((depGoesMissing_iff req info).mp h) hc

/-- Witness for C5: a dependency at version 1.0 under a request for
version 2.0 goes to missing and not to installed. -/
theorem C5_witness :
    ("a" ∈ (processDeps (some "2.0")
        [("a", (⟨none, none, some "1.0"⟩ : DepInfo))] (∅, ∅)).2 ↔
      ((⟨none, none, some "1.0"⟩ : DepInfo).missing = some true ∨
       (⟨none, none, some "1.0"⟩ : DepInfo).invalid = some true ∨
        ∃ r, (some "2.0" : Option String) = some r ∧ r ≠ "" ∧
          ∃ v, (⟨none, none, some "1.0"⟩ : DepInfo).version = some v ∧ v ≠ r))
  ∧ ("a" ∈ (processDeps (some "2.0")
        [("a", (⟨none, none, some "1.0"⟩ : DepInfo))] (∅, ∅)).1 ↔
      ¬((⟨none, none, some "1.0"⟩ : DepInfo).missing = some true ∨
        (⟨none, none, some "1.0"⟩ : DepInfo).invalid = some true ∨
        ∃ r, (some "2.0" : Option String) = some r ∧ r ≠ "" ∧
          ∃ v, (⟨none, none, some "1.0"⟩ : DepInfo).version = some v ∧ v ≠ r)) :=
  C5_dependency_placement (some "2.0") [("a", ⟨none, none, some "1.0"⟩)]
    (by simp) "a" ⟨none, none, some "1.0"⟩ (by simp)

/-- Valid parameters for the latest state. -/
def pLatest : Params :=
  { name := none, path := some "/app", version := none, glbl := false
    state := "latest", checkMode := false }

/-- A fixture whose outdated output reports one outdated package b at
current 1.0 and wanted 2.0. -/
def fxOut : Fixture :=
  { listJson := .ok none
    outdatedJson := .ok [("b", ⟨some "l", some "1.0", some "2.0"⟩)]
    outdatedPlain := []
    installRes := (0, "")
    updateRes := (0, "")
    uninstallRes := (0, "") }

/-- C6: the outdated set is computed (Npm.list_outdated invoked) exactly
when the desired state is latest, and a package enters the set it
returns exactly when its current field is present and differs from the
requested version (when one is truthy) or from its wanted field
otherwise. -/
theorem C6_outdated_only_for_latest (p : Params) (fx : Fixture)
    (im : Finset String × Finset String) (hv : validate p = none)
    (hl : (npmListT (mkNpm p) fx).2 = .ok im) :
    (Meth.listOutdated ∈ (npmMain p fx).called ↔ p.state = "latest")
  ∧ (∀ (npm : Npm) (fx2 : Fixture) (data : List (String × OutInfo)) (od : Finset String),
      fx2.outdatedJson = Except.ok data →
      (listOutdatedT npm fx2).2 = .ok od →
      ∀ pkg, pkg ∈ od ↔ ∃ info, (pkg, info) ∈ data ∧ ∃ c, info.current = some c ∧
        ((strTruthy npm.reqversion = true ∧ some c ≠ npm.reqversion) ∨
         (strTruthy npm.reqversion = false ∧
           ∃ w, info.wanted = some w ∧ c ≠ w))) := by
  constructor
  · rcases npmMain_shape p fx with ⟨msg, hsome, hr⟩ | ⟨e, herr, hr⟩ | ⟨hne, hr⟩ |
      ⟨e, hlat, hr⟩ | ⟨hlat, hr⟩ | ⟨hpres, hr⟩ | ⟨hlat, hr⟩ | ⟨hlat, hr⟩ | ⟨hne, hnp, hr⟩
    · rw [hv] at hsome; cases hsome
    · rw [herr] at hl; cases hl
    · rw [hr]; simp [hne]
    · rw [hr]; simp [hlat]
    · rw [hr]; simp [hlat]
    · rw [hr, mutStep_eq]; simp [hpres]
    · rw [hr, mutStep_eq]; simp [hlat]
    · rw [hr, mutStep_eq]; simp [hlat]
    · rw [hr, mutStep_eq]; simp [hne]
  · intro npm fx2 data od hdata hres pkg
    simp only [listOutdatedT, hdata] at hres
    rw [outdatedFold_mem npm.reqversion data ∅ od hres pkg]
    simp only [Finset.not_mem_empty, false_or]
    constructor
    · rintro ⟨info, hmem, hout⟩
      exact ⟨info, hmem, (pkgIsOutdated_ok_iff npm.reqversion info true hout).mp rfl⟩
    · rintro ⟨info, hmem, c, hcur, hrest⟩
      refine ⟨info, hmem, ?_⟩
      rcases hrest with ⟨ht, hne2⟩ | ⟨hf, w, hw, hne2⟩
      · simp [pkgIsOutdated, hcur, ht, hne2]
      · simp [pkgIsOutdated, hcur, hf, hw, hne2]

/-- Witness for C6: the concrete latest run invokes list_outdated, and
package b with current 1.0 and wanted 2.0 is in the computed outdated
set. -/
theorem C6_witness :
    (Meth.listOutdated ∈ (npmMain pLatest fxOut).called ↔ pLatest.state = "latest")
  ∧ ("b" ∈ ({"b"} : Finset String) ↔
      ∃ info, ("b", info) ∈ [("b", (⟨some "l", some "1.0", some "2.0"⟩ : OutInfo))] ∧
        ∃ c, info.current = some c ∧
          ((strTruthy (mkNpm pLatest).reqversion = true ∧
             some c ≠ (mkNpm pLatest).reqversion) ∨
           (strTruthy (mkNpm pLatest).reqversion = false ∧
             ∃ w, info.wanted = some w ∧ c ≠ w))) := by
  have h := C6_outdated_only_for_latest pLatest fxOut
    ((mergeOutdated [("b", ⟨some "l", some "1.0", some "2.0"⟩)] ∅ ∅).1,
      (mergeOutdated [("b", ⟨some "l", some "1.0", some "2.0"⟩)] ∅ ∅).2)
    (by decide) rfl
  exact ⟨h.1, h.2 (mkNpm pLatest) fxOut
    [("b", ⟨some "l", some "1.0", some "2.0"⟩)] {"b"} rfl rfl "b"⟩

/-- A fixture whose list --json output does not parse as JSON. -/
def fxBadList : Fixture :=
  { listJson := .error ()
    outdatedJson := .ok []
    outdatedPlain := []
    installRes := (0, "")
    updateRes := (0, "")
    uninstallRes := (0, "") }

/-- A fixture whose outdated --json output does not parse, with one
dependency in the list output and one legacy line in the plain outdated
output. -/
def fxBadOut : Fixture :=
  { listJson := .ok (some [("a", ⟨none, none, some "1.0"⟩)])
    outdatedJson := .error ()
    outdatedPlain := ["b@1.0.0 lib"]
    installRes := (0, "")
    updateRes := (0, "")
    uninstallRes := (0, "") }

/-- Counterexample to C3 as stated: when the list --json output fails
JSON parsing, Npm.list does not fall back to any legacy line parsing:
the ValueError propagates uncaught, after the list command already
ran. -/
theorem C3_counterexample :
    npmListT (mkNpm pPresent) fxBadList = ([Cmd.list], .error .valueError) := rfl

/-- C3 amended: only Npm.list_outdated falls back to the legacy
line-oriented parsing on a JSON parse failure (re-running the outdated
command without the json flag and line-parsing that output); inside
Npm.list, a parse failure of the outdated output is silently swallowed
(the sets of the first loop are kept unchanged), while a parse failure
of the list output propagates as an uncaught ValueError. -/
theorem C3_amended_parse_fallback (npm : Npm) (fx : Fixture) :
    (∀ e, fx.outdatedJson = Except.error e →
      listOutdatedT npm fx =
        ([Cmd.outdated, Cmd.outdatedPlain], legacyOutdated fx.outdatedPlain ∅))
  ∧ (∀ e, fx.listJson = Except.error e →
      npmListT npm fx = ([Cmd.list], .error .valueError))
  ∧ (∀ deps e, fx.listJson = Except.ok (some deps) →
      fx.outdatedJson = Except.error e →
      (npmListT npm fx).2 = .ok ((processDeps npm.reqversion deps (∅, ∅)).1,
        addNameMissing npm.name (processDeps npm.reqversion deps (∅, ∅)).1
          (processDeps npm.reqversion deps (∅, ∅)).2)) := by
  refine ⟨?_, ?_, ?_⟩
  · intro e he; simp [listOutdatedT, he]
  · intro e he; simp [npmListT, he]
  · intro deps e h1 h2; simp [npmListT, h1, h2]

/-- Witness for the amended C3 at the concrete fixtures: the
list_outdated fallback line-parses the plain output, the unparseable
list output raises, and Npm.list keeps its first-loop sets when only
the outdated output is unparseable. -/
theorem C3_witness :
    listOutdatedT (mkNpm pLatest) fxBadOut =
      ([Cmd.outdated, Cmd.outdatedPlain], legacyOutdated ["b@1.0.0 lib"] ∅)
  ∧ npmListT (mkNpm pLatest) fxBadList = ([Cmd.list], .error .valueError)
  ∧ (npmListT (mkNpm pLatest) fxBadOut).2 = .ok
      ((processDeps (mkNpm pLatest).reqversion
          [("a", ⟨none, none, some "1.0"⟩)] (∅, ∅)).1,
        addNameMissing (mkNpm pLatest).name
          (processDeps (mkNpm pLatest).reqversion
            [("a", ⟨none, none, some "1.0"⟩)] (∅, ∅)).1
          (processDeps (mkNpm pLatest).reqversion
            [("a", ⟨none, none, some "1.0"⟩)] (∅, ∅)).2) :=
  ⟨(C3_amended_parse_fallback (mkNpm pLatest) fxBadOut).1 () rfl,
   (C3_amended_parse_fallback (mkNpm pLatest) fxBadList).2.1 () rfl,
   (C3_amended_parse_fallback (mkNpm pLatest) fxBadOut).2.2
     [("a", ⟨none, none, some "1.0"⟩)] () rfl rfl⟩

/-- Counterexample to C4 as stated: the list invocation passes
check_rc=False, so a non-zero exit code from it is not a fatal failure:
the captured output is returned and inspected as usual. -/
theorem C4_counterexample :
    execModel false Cmd.list 1 "some output" = ([Cmd.list], Except.ok "some output") :=
  rfl

/-- The trace of a single _exec is the command or nothing. -/
lemma execModel_trace (cm : Bool) (c : Cmd) (rc : Nat) (out : String) :
    (execModel cm c rc out).1 = [c] ∨ (execModel cm c rc out).1 = [] := by
  unfold execModel
  split <;> simp

/-- Counting a command that does not occur in the prefix and occurs at
most once in the suffix. -/
lemma count_le_one_append (c : Cmd) (l1 l2 : List Cmd) (h1 : c ∉ l1)
    (h2 : (∃ c2, l2 = [c2]) ∨ l2 = []) : (l1 ++ l2).count c ≤ 1 := by
  rw [List.count_append, List.count_eq_zero.mpr h1]
  rcases h2 with ⟨c2, h⟩ | h <;> subst h
  · by_cases hc : c = c2 <;> simp [List.count_cons, hc]
  · simp

/-- C4 amended: the mutating invocations (install, update, uninstall)
pass check_rc=True, so outside check mode a non-zero exit code
propagates as a fatal failure whose message is the captured output; the
inspection invocations (list, outdated, plain outdated) pass
check_rc=False and tolerate a non-zero exit code; and no command is
retried: each mutating command is executed at most once per run. -/
theorem C4_amended_exit_code_handling :
    (∀ rc out, rc ≠ 0 →
      execModel false Cmd.install rc out = ([Cmd.install], Except.error out) ∧
      execModel false Cmd.update rc out = ([Cmd.update], Except.error out) ∧
      execModel false Cmd.uninstall rc out = ([Cmd.uninstall], Except.error out))
  ∧ (∀ rc out,
      execModel false Cmd.list rc out = ([Cmd.list], Except.ok out) ∧
      execModel false Cmd.outdated rc out = ([Cmd.outdated], Except.ok out) ∧
      execModel false Cmd.outdatedPlain rc out = ([Cmd.outdatedPlain], Except.ok out))
  ∧ (∀ p fx,
      (npmMain p fx).exec.count Cmd.install ≤ 1 ∧
      (npmMain p fx).exec.count Cmd.update ≤ 1 ∧
      (npmMain p fx).exec.count Cmd.uninstall ≤ 1) := by
  refine ⟨?_, ?_, ?_⟩
  · intro rc out h
    refine ⟨?_, ?_, ?_⟩ <;> simp [execModel, runCommand, cmdCheckRc, h]
  · intro rc out
    refine ⟨?_, ?_, ?_⟩ <;> simp [execModel, runCommand, cmdCheckRc, cmdRunInCheckMode]
  · intro p fx
    have hins := mut_not_mem_inspect_traces (mkNpm p) fx Cmd.install
      (by decide) (by decide) (by decide)
    have hup := mut_not_mem_inspect_traces (mkNpm p) fx Cmd.update
      (by decide) (by decide) (by decide)
    have hun := mut_not_mem_inspect_traces (mkNpm p) fx Cmd.uninstall
      (by decide) (by decide) (by decide)
    have happ : ∀ c : Cmd, c ∉ (npmListT (mkNpm p) fx).1 →
        c ∉ (listOutdatedT (mkNpm p) fx).1 →
        c ∉ (npmListT (mkNpm p) fx).1 ++ (listOutdatedT (mkNpm p) fx).1 := by
      intro c hc1 hc2
      simp [List.mem_append, hc1, hc2]
    rcases npmMain_shape p fx with ⟨msg, _, hr⟩ | ⟨e, _, hr⟩ | ⟨_, hr⟩ | ⟨e, _, hr⟩ |
      ⟨_, hr⟩ | ⟨_, hr⟩ | ⟨_, hr⟩ | ⟨_, hr⟩ | ⟨_, _, hr⟩ <;> rw [hr]
    · simp
    · exact ⟨by simp [List.count_eq_zero.mpr hins.1],
        by simp [List.count_eq_zero.mpr hup.1],
        by simp [List.count_eq_zero.mpr hun.1]⟩
    · exact ⟨by simp [List.count_eq_zero.mpr hins.1],
        by simp [List.count_eq_zero.mpr hup.1],
        by simp [List.count_eq_zero.mpr hun.1]⟩
    · exact ⟨by simp [List.count_eq_zero.mpr (happ _ hins.1 hins.2)],
        by simp [List.count_eq_zero.mpr (happ _ hup.1 hup.2)],
        by simp [List.count_eq_zero.mpr (happ _ hun.1 hun.2)]⟩
    · exact ⟨by simp [List.count_eq_zero.mpr (happ _ hins.1 hins.2)],
        by simp [List.count_eq_zero.mpr (happ _ hup.1 hup.2)],
        by simp [List.count_eq_zero.mpr (happ _ hun.1 hun.2)]⟩
    · rw [mutStep_eq]
      refine ⟨?_, ?_, ?_⟩ <;>
        exact count_le_one_append _ _ _ (by
            first
              | exact hins.1
              | exact hup.1
              | exact hun.1)
          (by rcases execModel_trace p.checkMode Cmd.install fx.installRes.1
                fx.installRes.2 with h | h
              · exact Or.inl ⟨_, h⟩
              · exact Or.inr h)
    · rw [mutStep_eq]
      refine ⟨?_, ?_, ?_⟩ <;>
        exact count_le_one_append _ _ _ (by
            first
              | exact happ _ hins.1 hins.2
              | exact happ _ hup.1 hup.2
              | exact happ _ hun.1 hun.2)
          (by rcases execModel_trace p.checkMode Cmd.install fx.installRes.1
                fx.installRes.2 with h | h
              · exact Or.inl ⟨_, h⟩
              · exact Or.inr h)
    · rw [mutStep_eq]
      refine ⟨?_, ?_, ?_⟩ <;>
        exact count_le_one_append _ _ _ (by
            first
              | exact happ _ hins.1 hins.2
              | exact happ _ hup.1 hup.2
              | exact happ _ hun.1 hun.2)
          (by rcases execModel_trace p.checkMode Cmd.update fx.updateRes.1
                fx.updateRes.2 with h | h
              · exact Or.inl ⟨_, h⟩
              · exact Or.inr h)
    · rw [mutStep_eq]
      refine ⟨?_, ?_, ?_⟩ <;>
        exact count_le_one_append _ _ _ (by
            first
              | exact hins.1
              | exact hup.1
              | exact hun.1)
          (by rcases execModel_trace p.checkMode Cmd.uninstall fx.uninstallRes.1
                fx.uninstallRes.2 with h | h
              · exact Or.inl ⟨_, h⟩
              · exact Or.inr h)

/-- Witness for the amended C4: a failing install is fatal with the
captured output as message, a failing list is not, and the concrete run
executes install at most once. -/
theorem C4_witness :
    (execModel false Cmd.install 1 "err" = ([Cmd.install], Except.error "err") ∧
     execModel false Cmd.update 1 "err" = ([Cmd.update], Except.error "err") ∧
     execModel false Cmd.uninstall 1 "err" = ([Cmd.uninstall], Except.error "err"))
  ∧ (npmMain pPresent fxGood).exec.count Cmd.install ≤ 1 :=
  ⟨C4_amended_exit_code_handling.1 1 "err" (by decide),
   (C4_amended_exit_code_handling.2.2 pPresent fxGood).1⟩

end NpmMod
